import Mathlib

/-!
Shallow embedding of the lunaris_core concurrency and dispatch substrate:
the worker pool (src/orchestrator/worker.rs), the mailbox
(src/mailbox/mod.rs), the envelope and message types
(src/protocol/message.rs), the envelope id counter (src/utils/uuid.rs)
and the FFI logging entry point (src/utils/tracing.rs).

Machine integers are modelled as `Nat` reduced modulo `2 ^ 64` (`u64`)
or `2 ^ 32` (`u32`) exactly where the source arithmetic can wrap.  Raw
pointers and C function pointers are modelled as `Nat` identifiers;
invoking a foreign destructor is recorded as a `FreeCall` event rather
than executed.  Shared-memory mutation is made explicit: operations
take and return the relevant state.
-/

namespace Lunaris

/-- Reduction modulo `2 ^ 64`: the value a `u64` register holds. -/
def u64Mod (n : Nat) : Nat := n % 2 ^ 64

/-- Reduction modulo `2 ^ 32`: the value of a `usize → u32` cast (`as u32`). -/
def u32Mod (n : Nat) : Nat := n % 2 ^ 32

/-- `lunaris_api::request::Priority`.  The five variants are exactly the
ones matched exhaustively in `WorkerPool::add_job` and
`PriorityQueues::push` (worker.rs lines 54-65 and 294-324). -/
inductive Priority
  | immediate
  | normal
  | deferred
  | videoFrame
  | background
  deriving DecidableEq, Repr

/-- The only error `WorkerPool::add_job` can return
(`LunarisError::RenderQueueFull`, worker.rs line 312). -/
inductive LunarisError
  | renderQueueFull
  deriving DecidableEq, Repr

/-- `PriorityQueues` (worker.rs lines 40-44): three FIFO deques for the
default worker group.  The list head models the `VecDeque` front. -/
structure PriorityQueues (α : Type) where
  immediate : List α
  normal : List α
  deferred : List α
  deriving DecidableEq, Repr

/-- `PriorityQueues::push` (worker.rs lines 54-66): `push_back` onto the
sub-queue named by the priority; the `VideoFrame` and `Background` arms
are `unreachable!` in the source, modelled as `none`. -/
def PriorityQueues.push {α : Type} (p : Priority) (task : α)
    (q : PriorityQueues α) : Option (PriorityQueues α) :=
  match p with
  | .immediate => some { q with immediate := q.immediate ++ [task] }
  | .normal => some { q with normal := q.normal ++ [task] }
  | .deferred => some { q with deferred := q.deferred ++ [task] }
  | .videoFrame => none
  | .background => none

/-- `PriorityQueues::pop` (worker.rs lines 67-72):
`immediate.pop_front().or_else(|| normal.pop_front()).or_else(|| deferred.pop_front())`. -/
def PriorityQueues.pop {α : Type} (q : PriorityQueues α) :
    Option (α × PriorityQueues α) :=
  match q.immediate with
  | t :: rest => some (t, { q with immediate := rest })
  | [] =>
    match q.normal with
    | t :: rest => some (t, { q with normal := rest })
    | [] =>
      match q.deferred with
      | t :: rest => some (t, { q with deferred := rest })
      | [] => none

/-- Derived observation: the drain order of the default queue group,
highest priority first, FIFO inside each sub-queue. -/
def PriorityQueues.toList {α : Type} (q : PriorityQueues α) : List α :=
  q.immediate ++ q.normal ++ q.deferred

/-- `FRAME_QUEUE_CAPACITY` (worker.rs line 38). -/
def FRAME_QUEUE_CAPACITY : Nat := 1024

/-- The mutable state of a `WorkerPool` (worker.rs lines 131-152) that
`add_job` reads or writes: the three queue groups and the two atomic
job counters (`u64` values). -/
structure PoolState (α : Type) where
  defaultQ : PriorityQueues α
  frameQ : List α
  bgQ : List α
  fgJobs : Nat
  bgJobs : Nat
  deriving DecidableEq, Repr

/-- `WorkerPool::add_job` (worker.rs lines 290-325).  Returns the
post-call pool state together with the error, if any:

* `Background`: `bg_jobs.fetch_add(1)` then `push_back` on the
  background deque;
* `VideoFrame`: `fg_jobs.fetch_add(1)` then a single non-blocking
  `ArrayQueue::push`; when the bounded ring already holds
  `FRAME_QUEUE_CAPACITY` tasks the push fails and the function returns
  `Err(RenderQueueFull)` — the counter increment is left in place;
* `Immediate`/`Normal`/`Deferred`: `fg_jobs.fetch_add(1)` then
  `PriorityQueues::push` (never `none` for these classes). -/
def addJob {α : Type} (s : PoolState α) (priority : Priority) (task : α) :
    PoolState α × Option LunarisError :=
  match priority with
  | .background =>
      ({ s with bgJobs := u64Mod (s.bgJobs + 1), bgQ := s.bgQ ++ [task] }, none)
  | .videoFrame =>
      let s₁ : PoolState α := { s with fgJobs := u64Mod (s.fgJobs + 1) }
      if s₁.frameQ.length < FRAME_QUEUE_CAPACITY then
        ({ s₁ with frameQ := s₁.frameQ ++ [task] }, none)
      else
        (s₁, some .renderQueueFull)
  | p =>
      let s₁ : PoolState α := { s with fgJobs := u64Mod (s.fgJobs + 1) }
      match PriorityQueues.push p task s.defaultQ with
      | some q => ({ s₁ with defaultQ := q }, none)
      | none => (s₁, none)

/-- `AtomicU64::fetch_sub(1, ..)`: returns `(new value, previous value)`;
the store wraps modulo `2 ^ 64`. -/
def fetchSub1 (counter : Nat) : Nat × Nat :=
  (u64Mod (counter + 2 ^ 64 - 1), counter)

/-- Default worker completion (worker.rs lines 196-202): after running a
task, `fg_jobs.fetch_sub(1) == 1` decides whether the zero condvar is
notified.  Returns the new counter value and the notify decision. -/
def defaultWorkerFinish (fg : Nat) : Nat × Bool :=
  let r := fetchSub1 fg
  (r.1, r.2 == 1)

/-- Frame worker fast-path completion (worker.rs lines 226-234). -/
def frameWorkerFastFinish (fg : Nat) : Nat × Bool :=
  let r := fetchSub1 fg
  (r.1, r.2 == 1)

/-- Frame worker slow-path completion (worker.rs lines 238-246). -/
def frameWorkerSlowFinish (fg : Nat) : Nat × Bool :=
  let r := fetchSub1 fg
  (r.1, r.2 == 1)

/-- Background worker completion (worker.rs lines 270-278). -/
def backgroundWorkerFinish (bg : Nat) : Nat × Bool :=
  let r := fetchSub1 bg
  (r.1, r.2 == 1)

/-- Async completion hook, background branch (worker.rs lines 349-354). -/
def asyncHookBgFinish (bg : Nat) : Nat × Bool :=
  let r := fetchSub1 bg
  (r.1, r.2 == 1)

/-- Async completion hook, foreground branch (worker.rs lines 355-359). -/
def asyncHookFgFinish (fg : Nat) : Nat × Bool :=
  let r := fetchSub1 fg
  (r.1, r.2 == 1)

/-- One invocation of the C destructor identified by `free` on pointer
`ptr`.  Destructor calls are recorded as events, not executed. -/
structure FreeCall where
  free : Nat
  ptr : Nat
  deriving DecidableEq, Repr

/-- `FFIPeek` (message.rs lines 262-267): borrowed foreign pointer and
length; `Copy`, never freed by this system. -/
structure FFIPeek where
  ptr : Nat
  len : Nat
  deriving DecidableEq, Repr

/-- `FFIData` (message.rs lines 283-289): owned foreign pointer, length
and the destructor callback `free` (a C function pointer, modelled as a
`Nat` identifier). -/
structure FFIData where
  ptr : Nat
  len : Nat
  free : Nat
  deriving DecidableEq, Repr

/-- The no-op `unsafe extern "C" fn dummy(_: *mut u8) {}`
(message.rs line 291), as a function identifier. -/
def dummy : Nat := 0

/-- `Clone for FFIData` (message.rs lines 293-310): allocates a fresh
buffer (`alloc` is the address the allocator hands back; the contents
are NOT copied), keeps `len`, and installs `dummy` as the destructor. -/
def FFIData.clone (alloc : Nat) (d : FFIData) : FFIData :=
  { ptr := alloc, len := d.len, free := dummy }

/-- `Drop for FFIData` (message.rs lines 312-316): calls
`(self.free)(self.ptr)`. -/
def FFIData.dropCalls (d : FFIData) : List FreeCall :=
  [⟨d.free, d.ptr⟩]

/-- `DataType` (message.rs lines 177-184), `repr(u8)`. -/
inductive DataType
  | none
  | code
  | ffiPeek
  | ffiData
  deriving DecidableEq, Repr

/-- The `repr(u8)` discriminant of `DataType`:
`None = 0, Code = 1, FfiPeek = 2, FfiData = 3`. -/
def DataType.toU8 : DataType → Nat
  | .none => 0
  | .code => 1
  | .ffiPeek => 2
  | .ffiData => 3

/-- The `data_type` tag together with the `Data` union of a `CMessage`
(message.rs lines 98-103 and 201-207), combined into a sum: the tag is
the only sound way to read the union, and every access in the source
matches on the tag first. -/
inductive CData
  | none
  | code (c : Nat)
  | ffiPeek (p : FFIPeek)
  | ffiData (d : FFIData)
  deriving DecidableEq, Repr

/-- The `DataType` tag stored alongside the union. -/
def CData.dataType : CData → DataType
  | .none => .none
  | .code _ => .code
  | .ffiPeek _ => .ffiPeek
  | .ffiData _ => .ffiData

/-- `CMessage` (message.rs lines 98-103). -/
structure CMessage where
  opcode : Nat
  data : CData
  deriving DecidableEq, Repr

/-- `Drop for CMessage` (message.rs lines 147-156): for `FfiData` it
calls `(self.data.ffi_data.free)(self.data.ffi_data.ptr)`; the
`Code | FfiPeek | None` arm frees nothing. -/
def CMessage.dropCalls (m : CMessage) : List FreeCall :=
  match m.data with
  | .ffiData d => [⟨d.free, d.ptr⟩]
  | _ => []

/-- `CEnvelope` (message.rs lines 64-72). -/
structure CEnvelope where
  id : Nat
  source : Nat
  destination : Nat
  require_ack : Bool
  message : CMessage
  deriving DecidableEq, Repr

/-- `DataEnum` (message.rs lines 238-246).  The `Arc` payload
(`Arc<dyn Any + Send>`) is opaque and modelled by an identifier. -/
inductive DataEnum
  | none
  | code (c : Nat)
  | arc (obj : Nat)
  | bytes (bs : List Nat)
  | ffiData (d : FFIData)
  | ffiPeek (p : FFIPeek)
  deriving DecidableEq, Repr

/-- Dropping a `DataEnum`: only the `FfiData` variant runs a foreign
destructor (`Drop for FFIData`); `Arc`/`Bytes` release Rust memory and
`FfiPeek`/`Code`/`None` free nothing. -/
def DataEnum.dropCalls : DataEnum → List FreeCall
  | .ffiData d => d.dropCalls
  | _ => []

/-- `Message` (message.rs lines 92-96). -/
structure Message where
  opcode : Nat
  data : DataEnum
  deriving DecidableEq, Repr

/-- Dropping a `Message` drops its payload. -/
def Message.dropCalls (m : Message) : List FreeCall :=
  m.data.dropCalls

/-- `Envelope` (message.rs lines 28-35). -/
structure Envelope where
  id : Nat
  source : Nat
  destination : Nat
  require_ack : Bool
  message : Message
  deriving DecidableEq, Repr

/-- Dropping an `Envelope` drops its message. -/
def Envelope.dropCalls (e : Envelope) : List FreeCall :=
  e.message.dropCalls

/-- `Clone` for `DataEnum` (derived, message.rs line 238): `Code`,
`Bytes` and `FfiPeek` copy their contents, `Arc` clones the shared
handle, and `FfiData` runs the custom `FFIData::clone` — `alloc` is the
fresh address its allocation returns. -/
def DataEnum.clone (alloc : Nat) : DataEnum → DataEnum
  | .none => .none
  | .code c => .code c
  | .arc obj => .arc obj
  | .bytes bs => .bytes bs
  | .ffiData d => .ffiData (d.clone alloc)
  | .ffiPeek p => .ffiPeek p

/-- `Clone` for `Message` (derived, message.rs line 92). -/
def Message.clone (alloc : Nat) (m : Message) : Message :=
  { opcode := m.opcode, data := m.data.clone alloc }

/-- `Clone` for `Envelope` (derived, message.rs line 28). -/
def Envelope.clone (alloc : Nat) (e : Envelope) : Envelope :=
  { e with message := e.message.clone alloc }

/-- `From<CMessage> for Message` (message.rs lines 158-174).  `alloc` is
the fresh address the allocator hands to `FFIData::clone` in the
`FfiData` arm.  Besides the converted message, the second component
records the destructor invocations performed during the conversion:
the function consumes `value`, so `Drop for CMessage` runs on it when
the function returns. -/
def CMessage.toMessage (alloc : Nat) (value : CMessage) :
    Message × List FreeCall :=
  ({ opcode := value.opcode,
     data :=
       match value.data with
       | .none => .none
       | .code c => .code c
       | .ffiPeek p => .ffiPeek p
       | .ffiData d => .ffiData (d.clone alloc) },
   value.dropCalls)

/-- `From<CEnvelope> for Envelope` (message.rs lines 74-84), with the
destructor invocations performed during the conversion. -/
def CEnvelope.toEnvelope (alloc : Nat) (value : CEnvelope) :
    Envelope × List FreeCall :=
  ({ id := value.id,
     source := value.source,
     destination := value.destination,
     require_ack := value.require_ack,
     message := (value.message.toMessage alloc).1 },
   (value.message.toMessage alloc).2)

/-- `get_next` (utils/uuid.rs lines 5-7): `NEXT_UUID.fetch_add(1)` on
the process-wide `AtomicU64`; returns `(previous value, new state)`. -/
def getNext (next_uuid : Nat) : Nat × Nat :=
  (next_uuid, u64Mod (next_uuid + 1))

/-- The counter state after `n` calls of `get_next`, starting from the
initial `AtomicU64::new(0)` (utils/uuid.rs line 3). -/
def uuidStateAfter : Nat → Nat
  | 0 => 0
  | n + 1 => (getNext (uuidStateAfter n)).2

/-- `Envelope::new` (message.rs lines 38-46): draws `id` from
`get_next`; explicit-state form, returning the envelope and the new
counter state. -/
def Envelope.new (uuidState : Nat) (source destination : Nat)
    (ra : Bool) (message : Message) : Envelope × Nat :=
  ((⟨(getNext uuidState).1, source, destination, ra, message⟩ : Envelope),
   (getNext uuidState).2)

/-- The level a `tracing` event is emitted at. -/
inductive LogLevel
  | error
  | warn
  | info
  | debug
  | trace
  deriving DecidableEq, Repr

/-- The distinct events `log_c` can emit: the forwarded FFI message
line (`"[FFI][C][src] msg"`), the illegal-level notice, and the
defaulting notice. -/
inductive LogEvent
  | message (source msg : String)
  | illegalLevel (level : Nat)
  | defaulting
  deriving DecidableEq, Repr

/-- `log_c` (utils/tracing.rs lines 9-43), after the C-string decoding:
levels 1-5 emit the message at `error!`/`warn!`/`info!`/`debug!`/
`trace!` respectively; any other level emits two `debug!` notices (the
illegal level and the defaulting note) and then the message at
`info!`.  Returns the emitted events and the `0` status code. -/
def log_c (msg source : String) (level : Nat) :
    List (LogLevel × LogEvent) × Nat :=
  (match level with
   | 1 => [(.error, .message source msg)]
   | 2 => [(.warn, .message source msg)]
   | 3 => [(.info, .message source msg)]
   | 4 => [(.debug, .message source msg)]
   | 5 => [(.trace, .message source msg)]
   | _ => [(.debug, .illegalLevel level), (.debug, .defaulting),
           (.info, .message source msg)],
   0)

/-- `LunaticError` variants reachable from the mailbox operations
modelled here (crate prelude; used by mailbox/mod.rs). -/
inductive LunaticError
  | pluginNotFound (id : Nat)
  | pluginNameNotFound (name : String)
  | pluginUnloadFailed (id : Nat)
  | pluginFailedMessage (envelope : Envelope)
  deriving DecidableEq, Repr

/-- Model of `tokio::sync::mpsc::Sender<Envelope>`: the queue of
envelopes handed to the channel, and whether the channel is closed
(`Sender::send` fails exactly when the receiver is gone). -/
structure Channel where
  sent : List Envelope
  closed : Bool
  deriving DecidableEq, Repr

/-- `Endpoint` (mailbox/mod.rs lines 17-21): listener callbacks (opaque
identifiers; unused by `send`) and the delivery channel. -/
structure Endpoint where
  listener : List Nat
  channel : Channel
  deriving DecidableEq, Repr

/-- `Sender::send`: refused when the channel is closed, otherwise the
envelope is appended to the channel's queue. -/
def Channel.send (ch : Channel) (e : Envelope) : Option Channel :=
  if ch.closed then none else some { ch with sent := ch.sent ++ [e] }

/-- Model of the `slab` crate's slot table (dependency of
mailbox/mod.rs): a list of occupied (`some`) or vacant (`none`) slots. -/
abbrev Slab (α : Type) : Type := List (Option α)

/-- `Slab::insert`: stores the value in a vacant slot (vacant keys are
reused before the slab grows) and returns the chosen key with the new
slab. -/
def slabInsert {α : Type} (s : Slab α) (x : α) : Nat × Slab α :=
  match s with
  | [] => (0, [some x])
  | none :: rest => (0, some x :: rest)
  | some y :: rest =>
    let r := slabInsert rest x
    (r.1 + 1, some y :: r.2)

/-- `Slab::get`: the occupant of slot `i`, if any. -/
def slabGet {α : Type} (s : Slab α) (i : Nat) : Option α :=
  (s : List (Option α)).getD i none

/-- Vacate slot `i` (the state change of `Slab::remove`). -/
def slabRemove {α : Type} (s : Slab α) (i : Nat) : Slab α :=
  (s : List (Option α)).set i none

/-- `HashMap::insert` on the name table (String keys), modelled as an
association list: replaces the binding if the key is present, appends
otherwise. -/
def namesInsert (m : List (String × Nat)) (name : String) (v : Nat) :
    List (String × Nat) :=
  match m with
  | [] => [(name, v)]
  | (k, w) :: rest =>
    if k = name then (name, v) :: rest else (k, w) :: namesInsert rest name v

/-- `HashMap::get` on the name table. -/
def namesLookup (m : List (String × Nat)) (name : String) : Option Nat :=
  match m with
  | [] => none
  | (k, w) :: rest => if k = name then some w else namesLookup rest name

/-- `MailBox` (mailbox/mod.rs lines 43-46): the slot table (`registry`)
and the name table (`id`).  The `ArcSwap` copy-on-write cells are
modelled by plain values with explicit state passing. -/
structure MailBox where
  registry : Slab Endpoint
  id : List (String × Nat)

/-- `MailBox::register` (mailbox/mod.rs lines 49-58): inserts the
endpoint into the slot table, casts the slab key with `as u32`, records
`name → id` in the name table, and returns the id. -/
def MailBox.register (mb : MailBox) (endpoint : Endpoint) (name : String) :
    Nat × MailBox :=
  let r := slabInsert mb.registry endpoint
  let id := u32Mod r.1
  (id, { registry := r.2, id := namesInsert mb.id name id })

/-- `MailBox::unregister` (mailbox/mod.rs lines 59-68): errors with
`PluginUnloadFailed` when the slot is vacant, otherwise removes and
returns the endpoint.  The name table is left untouched. -/
def MailBox.unregister (mb : MailBox) (id : Nat) :
    Except LunaticError (Endpoint × MailBox) :=
  match slabGet mb.registry id with
  | none => .error (.pluginUnloadFailed id)
  | some ep => .ok (ep, { mb with registry := slabRemove mb.registry id })

/-- `MailBox::resolve` (mailbox/mod.rs lines 95-102). -/
def MailBox.resolve (mb : MailBox) (name : String) :
    Except LunaticError Nat :=
  match namesLookup mb.id name with
  | some s => .ok s
  | none => .error (.pluginNameNotFound name)

/-- `MailBox::send` (mailbox/mod.rs lines 69-94): looks up
`envelope.destination` in the slot table (`PluginNotFound` when
vacant), then hands `envelope.clone()` to the endpoint's channel —
`alloc` is the fresh address the allocator returns inside
`FFIData::clone` when the payload is `FfiData`; a failed hand-off
surfaces as `PluginFailedMessage` carrying the original envelope.  On
success the clone sits in the destination endpoint's channel. -/
def MailBox.send (mb : MailBox) (alloc : Nat) (envelope : Envelope) :
    Except LunaticError MailBox :=
  match slabGet mb.registry envelope.destination with
  | none => .error (.pluginNotFound envelope.destination)
  | some endpoint =>
    match endpoint.channel.send (envelope.clone alloc) with
    | some ch =>
      .ok { mb with
              registry := (mb.registry : List (Option Endpoint)).set
                envelope.destination (some { endpoint with channel := ch }) }
    | none => .error (.pluginFailedMessage envelope)

/-- A mailbox operation that can run between a registration and a later
`resolve` (the state-changing public surface besides `re_init`). -/
inductive MOp
  | register (endpoint : Endpoint) (name : String)
  | unregister (id : Nat)
  | sendOp (alloc : Nat) (envelope : Envelope)

/-- The state transition of one mailbox operation (a failing operation
leaves the state unchanged). -/
def applyOp (mb : MailBox) (op : MOp) : MailBox :=
  match op with
  | .register e name => (mb.register e name).2
  | .unregister id =>
    match mb.unregister id with
    | .ok r => r.2
    | .error _ => mb
  | .sendOp alloc env =>
    match mb.send alloc env with
    | .ok mb₂ => mb₂
    | .error _ => mb

/-- Run a sequence of mailbox operations. -/
def applyOps (mb : MailBox) (ops : List MOp) : MailBox :=
  ops.foldl applyOp mb

/-! ### Helper lemmas -/

theorem u64Mod_succ_ne (x : Nat) : u64Mod (x + 1) ≠ x := by
  unfold u64Mod
  intro h
  rcases Nat.lt_or_ge (x + 1) (2 ^ 64) with h₁ | h₁
  · rw [Nat.mod_eq_of_lt h₁] at h
    omega
  · have h₂ : (x + 1) % 2 ^ 64 < 2 ^ 64 := Nat.mod_lt _ (by norm_num)
    omega

theorem fetchSub1_one : (fetchSub1 1).1 = 0 := by
  norm_num [fetchSub1, u64Mod]

theorem namesInsert_lookup_self (m : List (String × Nat)) (name : String)
    (v : Nat) : namesLookup (namesInsert m name v) name = some v := by
  induction m with
  | nil => simp [namesInsert, namesLookup]
  | cons kv rest ih =>
    obtain ⟨k, w⟩ := kv
    by_cases h : k = name
    · subst h
      simp [namesInsert, namesLookup]
    · simp [namesInsert, namesLookup, h, ih]

theorem namesInsert_lookup_other (m : List (String × Nat)) (name q : String)
    (v : Nat) (h : q ≠ name) :
    namesLookup (namesInsert m name v) q = namesLookup m q := by
  induction m with
  | nil =>
    simp [namesInsert, namesLookup, show ¬name = q from fun hh => h hh.symm]
  | cons kv rest ih =>
    obtain ⟨k, w⟩ := kv
    by_cases hk : k = name
    · subst hk
      simp [namesInsert, namesLookup, show ¬k = q from fun hh => h hh.symm]
    · simp [namesInsert, namesLookup, hk, ih]

theorem slabInsert_key_le {α : Type} (s : Slab α) (x : α) :
    (slabInsert s x).1 ≤ s.length := by
  induction s with
  | nil => simp [slabInsert]
  | cons a rest ih =>
    cases a with
    | none => simp [slabInsert]
    | some y =>
      simp only [slabInsert, List.length_cons]
      exact Nat.succ_le_succ ih

theorem slabInsert_length {α : Type} (s : Slab α) (x : α) :
    (slabInsert s x).2.length ≤ s.length + 1 := by
  induction s with
  | nil => simp [slabInsert]
  | cons a rest ih =>
    cases a with
    | none => simp [slabInsert]
    | some y =>
      simp only [slabInsert, List.length_cons]
      exact Nat.succ_le_succ ih

theorem slabInsert_full {α : Type} (s : Slab α) (y : α)
    (h : ∀ a ∈ s, a ≠ none) : slabInsert s y = (s.length, s ++ [some y]) := by
  induction s with
  | nil => rfl
  | cons a rest ih =>
    cases a with
    | none => exact absurd rfl (h none (List.mem_cons_self _ _))
    | some x =>
      simp only [slabInsert, ih (fun b hb => h b (List.mem_cons_of_mem _ hb)),
        List.length_cons, List.cons_append]

theorem slabInsert_full_fst {α : Type} (s : Slab α) (y : α)
    (h : ∀ a ∈ s, a ≠ none) : (slabInsert s y).1 = s.length := by
  rw [slabInsert_full s y h]

theorem slabInsert_full_snd {α : Type} (s : Slab α) (y : α)
    (h : ∀ a ∈ s, a ≠ none) : (slabInsert s y).2 = s ++ [some y] := by
  rw [slabInsert_full s y h]

theorem slabInsert_vacant {α : Type} (s : Slab α) (x : α) :
    slabGet s (slabInsert s x).1 = none := by
  induction s with
  | nil => rfl
  | cons a rest ih =>
    cases a with
    | none => rfl
    | some y => simpa [slabInsert, slabGet, List.getD_cons_succ] using ih

theorem slabInsert_get_self {α : Type} (s : Slab α) (x : α) :
    slabGet (slabInsert s x).2 (slabInsert s x).1 = some x := by
  induction s with
  | nil => rfl
  | cons a rest ih =>
    cases a with
    | none => rfl
    | some y => simpa [slabInsert, slabGet, List.getD_cons_succ] using ih

theorem slabInsert_get_other {α : Type} (s : Slab α) (x : α) (i : Nat)
    (h : i ≠ (slabInsert s x).1) :
    slabGet (slabInsert s x).2 i = slabGet s i := by
  induction s generalizing i with
  | nil =>
    cases i with
    | zero => exact absurd rfl h
    | succ n => simp [slabInsert, slabGet, List.getD_cons_succ]
  | cons a rest ih =>
    cases a with
    | none =>
      cases i with
      | zero => exact absurd rfl h
      | succ n => simp [slabInsert, slabGet, List.getD_cons_succ]
    | some y =>
      cases i with
      | zero => rfl
      | succ n =>
        have hn : n ≠ (slabInsert rest x).1 := by
          intro hn
          exact h (by simp [slabInsert, hn])
        simpa [slabInsert, slabGet, List.getD_cons_succ] using ih n hn

theorem slabGet_lt_length {α : Type} (s : Slab α) (i : Nat) (x : α)
    (h : slabGet s i = some x) : i < s.length := by
  induction s generalizing i with
  | nil => simp [slabGet] at h
  | cons a rest ih =>
    cases i with
    | zero => simp
    | succ n =>
      simp only [slabGet, List.getD_cons_succ] at h
      exact Nat.succ_lt_succ (ih n h)

theorem slabGet_set_self {α : Type} (s : Slab α) (i : Nat) (x : α)
    (v : Option α) (h : slabGet s i = some x) :
    slabGet (s.set i v) i = v := by
  induction s generalizing i with
  | nil => simp [slabGet] at h
  | cons a rest ih =>
    cases i with
    | zero => rfl
    | succ n =>
      simp only [slabGet, List.getD_cons_succ] at h
      simpa [slabGet, List.set, List.getD_cons_succ] using ih n h

theorem uuidStateAfter_eq (n : Nat) : uuidStateAfter n = n % 2 ^ 64 := by
  induction n with
  | zero => rfl
  | succ n ih =>
    show u64Mod (uuidStateAfter n + 1) = (n + 1) % 2 ^ 64
    rw [ih]
    unfold u64Mod
    exact Nat.mod_add_mod n (2 ^ 64) 1

/-! ### Claim theorems -/

/-- C1 (the code at the failing input): when the bounded frame queue is
full, `add_job` with a `VideoFrame` job returns `Err(RenderQueueFull)`
and enqueues the task on no queue, but the foreground counter keeps the
pre-push increment — it is NOT rolled back, so the post-call counter
differs from its value before the call. -/
theorem addJob_videoFrame_full_no_rollback {α : Type} (s : PoolState α) (t : α)
    (hfull : s.frameQ.length = FRAME_QUEUE_CAPACITY) :
    addJob s .videoFrame t
      = ({ s with fgJobs := u64Mod (s.fgJobs + 1) }, some .renderQueueFull)
    ∧ u64Mod (s.fgJobs + 1) ≠ s.fgJobs := by
  refine ⟨?_, u64Mod_succ_ne s.fgJobs⟩
  simp [addJob, hfull]

theorem addJob_videoFrame_full_no_rollback_witness :
    (addJob (⟨⟨[], [], []⟩, List.replicate 1024 (0 : Nat), [], 5, 0⟩ : PoolState Nat)
        .videoFrame 7).2 = some .renderQueueFull
    ∧ (addJob (⟨⟨[], [], []⟩, List.replicate 1024 (0 : Nat), [], 5, 0⟩ : PoolState Nat)
        .videoFrame 7).1.fgJobs = 6 := by
  have h := addJob_videoFrame_full_no_rollback
    (⟨⟨[], [], []⟩, List.replicate 1024 (0 : Nat), [], 5, 0⟩ : PoolState Nat) 7
    (by show (List.replicate 1024 (0 : Nat)).length = FRAME_QUEUE_CAPACITY
        rw [List.length_replicate]
        rfl)
  rw [h.1]
  exact ⟨rfl, by norm_num [u64Mod]⟩

/-- C3: in the default queue group, `pop` returns the front element of
the highest-priority non-empty sub-queue (Immediate > Normal >
Deferred) and removes exactly that element; equivalently, `pop` always
removes the head of the priority-ordered drain `toList`; and `push`
appends at the back of the sub-queue named by the priority, so each
sub-queue is FIFO.  In particular a pending Immediate task is dequeued
before any pending Normal or Deferred task. -/
theorem priorityQueues_pop_order_fifo {α : Type} (q : PriorityQueues α) (t : α) :
    (∀ u rest, q.immediate = u :: rest →
      q.pop = some (u, { q with immediate := rest }))
  ∧ (q.immediate = [] → ∀ u rest, q.normal = u :: rest →
      q.pop = some (u, { q with normal := rest }))
  ∧ (q.immediate = [] → q.normal = [] → ∀ u rest, q.deferred = u :: rest →
      q.pop = some (u, { q with deferred := rest }))
  ∧ (q.toList = [] → q.pop = none)
  ∧ (∀ u rest, q.toList = u :: rest →
      ∃ q₂, q.pop = some (u, q₂) ∧ q₂.toList = rest)
  ∧ (PriorityQueues.push .immediate t q
      = some { q with immediate := q.immediate ++ [t] })
  ∧ (PriorityQueues.push .normal t q
      = some { q with normal := q.normal ++ [t] })
  ∧ (PriorityQueues.push .deferred t q
      = some { q with deferred := q.deferred ++ [t] }) := by
  obtain ⟨i, n, d⟩ := q
  refine ⟨?_, ?_, ?_, ?_, ?_, rfl, rfl, rfl⟩
  · intro u rest h
    subst h
    rfl
  · intro hi u rest h
    subst hi
    subst h
    rfl
  · intro hi hn u rest h
    subst hi
    subst hn
    subst h
    rfl
  · intro h
    simp only [PriorityQueues.toList, List.append_eq_nil] at h
    obtain ⟨⟨hi, hn⟩, hd⟩ := h
    subst hi
    subst hn
    subst hd
    rfl
  · intro u rest h
    cases i with
    | cons a as =>
      simp only [PriorityQueues.toList, List.cons_append, List.cons.injEq] at h
      obtain ⟨hu, hrest⟩ := h
      subst hu
      exact ⟨⟨as, n, d⟩, rfl, by simpa [PriorityQueues.toList] using hrest⟩
    | nil =>
      cases n with
      | cons b bs =>
        simp only [PriorityQueues.toList, List.nil_append, List.cons_append,
          List.cons.injEq] at h
        obtain ⟨hu, hrest⟩ := h
        subst hu
        exact ⟨⟨[], bs, d⟩, rfl, by simpa [PriorityQueues.toList] using hrest⟩
      | nil =>
        cases d with
        | nil => simp [PriorityQueues.toList] at h
        | cons c cs =>
          simp only [PriorityQueues.toList, List.nil_append, List.cons.injEq] at h
          obtain ⟨hu, hrest⟩ := h
          subst hu
          exact ⟨⟨[], [], cs⟩, rfl, by simpa [PriorityQueues.toList] using hrest⟩

theorem priorityQueues_pop_order_fifo_witness :
    PriorityQueues.pop (⟨[1], [2], [3]⟩ : PriorityQueues Nat)
      = some (1, ⟨[], [2], [3]⟩) :=
  (priorityQueues_pop_order_fifo (⟨[1], [2], [3]⟩ : PriorityQueues Nat) 9).1
    1 [] rfl

/-- C4: at each of the six counter-decrement sites (default worker,
frame worker fast and slow paths, background worker, and the async
completion hook's background and foreground branches), the zero-reached
condvar is notified if and only if the pre-decrement counter value was
1; and when it was 1 the post-decrement value is 0 at every site. -/
theorem zero_transition_notify (c : Nat) :
    ((defaultWorkerFinish c).2 = true ↔ c = 1)
  ∧ ((frameWorkerFastFinish c).2 = true ↔ c = 1)
  ∧ ((frameWorkerSlowFinish c).2 = true ↔ c = 1)
  ∧ ((backgroundWorkerFinish c).2 = true ↔ c = 1)
  ∧ ((asyncHookBgFinish c).2 = true ↔ c = 1)
  ∧ ((asyncHookFgFinish c).2 = true ↔ c = 1)
  ∧ (c = 1 →
      (defaultWorkerFinish c).1 = 0 ∧ (frameWorkerFastFinish c).1 = 0
      ∧ (frameWorkerSlowFinish c).1 = 0 ∧ (backgroundWorkerFinish c).1 = 0
      ∧ (asyncHookBgFinish c).1 = 0 ∧ (asyncHookFgFinish c).1 = 0) := by
  refine ⟨?_, ?_, ?_, ?_, ?_, ?_, ?_⟩
  · simp [defaultWorkerFinish, fetchSub1]
  · simp [frameWorkerFastFinish, fetchSub1]
  · simp [frameWorkerSlowFinish, fetchSub1]
  · simp [backgroundWorkerFinish, fetchSub1]
  · simp [asyncHookBgFinish, fetchSub1]
  · simp [asyncHookFgFinish, fetchSub1]
  · intro hc
    subst hc
    refine ⟨?_, ?_, ?_, ?_, ?_, ?_⟩ <;>
      simp [defaultWorkerFinish, frameWorkerFastFinish, frameWorkerSlowFinish,
        backgroundWorkerFinish, asyncHookBgFinish, asyncHookFgFinish,
        fetchSub1_one, fetchSub1, u64Mod]

theorem zero_transition_notify_witness :
    (defaultWorkerFinish 1).2 = true ∧ (defaultWorkerFinish 1).1 = 0 :=
  ⟨(zero_transition_notify 1).1.mpr rfl,
   ((zero_transition_notify 1).2.2.2.2.2.2 rfl).1⟩

/-- C2 (the code at the failing input): converting a `CEnvelope` whose
payload tag is `FfiData` invokes the foreign destructor on the original
pointer DURING the conversion (the temporary `CMessage` is dropped when
`From::from` returns), while dropping the resulting `Envelope` invokes
only the no-op `dummy` destructor on the freshly allocated clone
pointer.  The foreign destructor runs exactly once over the whole
lifetime, but not at the moment the claim requires. -/
theorem cEnvelope_ffiData_destructor_during_conversion
    (c : CEnvelope) (d : FFIData) (alloc : Nat)
    (hd : c.message.data = .ffiData d) (hfree : d.free ≠ dummy) :
    (c.toEnvelope alloc).2 = [⟨d.free, d.ptr⟩]
    ∧ (c.toEnvelope alloc).1.dropCalls = [⟨dummy, alloc⟩]
    ∧ (⟨d.free, d.ptr⟩ : FreeCall) ∉ (c.toEnvelope alloc).1.dropCalls
    ∧ ((c.toEnvelope alloc).2 ++ (c.toEnvelope alloc).1.dropCalls).count
        ⟨d.free, d.ptr⟩ = 1 := by
  obtain ⟨i, src, dst, ack, m⟩ := c
  obtain ⟨op, data⟩ := m
  simp only [CMessage.mk.injEq] at hd
  subst hd
  refine ⟨rfl, rfl, ?_, ?_⟩
  · simp [CEnvelope.toEnvelope, CMessage.toMessage, FFIData.clone,
      Envelope.dropCalls, Message.dropCalls, DataEnum.dropCalls,
      FFIData.dropCalls, FreeCall.mk.injEq]
    intro h
    exact absurd h hfree
  · simp [CEnvelope.toEnvelope, CMessage.toMessage, CMessage.dropCalls,
      FFIData.clone, Envelope.dropCalls, Message.dropCalls,
      DataEnum.dropCalls, FFIData.dropCalls, List.count_cons,
      FreeCall.mk.injEq]
    intro h
    exact absurd h.symm hfree

theorem cEnvelope_ffiData_destructor_during_conversion_witness :
    (CEnvelope.toEnvelope 100 ⟨1, 2, 3, true, ⟨5, .ffiData ⟨7, 4, 1⟩⟩⟩).2
      = [⟨1, 7⟩]
    ∧ (CEnvelope.toEnvelope 100
        ⟨1, 2, 3, true, ⟨5, .ffiData ⟨7, 4, 1⟩⟩⟩).1.dropCalls = [⟨dummy, 100⟩]
    ∧ (⟨1, 7⟩ : FreeCall) ∉ (CEnvelope.toEnvelope 100
        ⟨1, 2, 3, true, ⟨5, .ffiData ⟨7, 4, 1⟩⟩⟩).1.dropCalls := by
  have h := cEnvelope_ffiData_destructor_during_conversion
    ⟨1, 2, 3, true, ⟨5, .ffiData ⟨7, 4, 1⟩⟩⟩ ⟨7, 4, 1⟩ 100 rfl (by decide)
  exact ⟨h.1, h.2.1, h.2.2.1⟩

/-- C7: the `CEnvelope → Envelope` conversion preserves `id`, `source`,
`destination`, `require_ack` and the message `opcode`, and maps the
payload according to its tag byte: tag 0 (`None`) to `None`, tag 1
(`Code`) to `Code` with the same `u32`, tag 2 (`FfiPeek`) to `FfiPeek`
with the same pointer and length, tag 3 (`FfiData`) to `FfiData`. -/
theorem cEnvelope_toEnvelope_preserves (alloc : Nat) (c : CEnvelope) :
    (c.toEnvelope alloc).1.id = c.id
  ∧ (c.toEnvelope alloc).1.source = c.source
  ∧ (c.toEnvelope alloc).1.destination = c.destination
  ∧ (c.toEnvelope alloc).1.require_ack = c.require_ack
  ∧ (c.toEnvelope alloc).1.message.opcode = c.message.opcode
  ∧ (c.message.data.dataType.toU8 = 0 →
      (c.toEnvelope alloc).1.message.data = .none)
  ∧ (∀ n, c.message.data = .code n → c.message.data.dataType.toU8 = 1
      ∧ (c.toEnvelope alloc).1.message.data = .code n)
  ∧ (∀ p, c.message.data = .ffiPeek p → c.message.data.dataType.toU8 = 2
      ∧ (c.toEnvelope alloc).1.message.data = .ffiPeek p)
  ∧ (∀ d, c.message.data = .ffiData d → c.message.data.dataType.toU8 = 3
      ∧ ∃ d₂, (c.toEnvelope alloc).1.message.data = .ffiData d₂
          ∧ d₂.len = d.len) := by
  obtain ⟨i, src, dst, ack, m⟩ := c
  obtain ⟨op, data⟩ := m
  refine ⟨rfl, rfl, rfl, rfl, rfl, ?_, ?_, ?_, ?_⟩
  · intro h
    cases data with
    | none => rfl
    | code n => simp [CData.dataType, DataType.toU8] at h
    | ffiPeek p => simp [CData.dataType, DataType.toU8] at h
    | ffiData d => simp [CData.dataType, DataType.toU8] at h
  · rintro n rfl
    exact ⟨rfl, rfl⟩
  · rintro p rfl
    exact ⟨rfl, rfl⟩
  · rintro d rfl
    exact ⟨rfl, ⟨d.clone alloc, rfl, rfl⟩⟩

theorem cEnvelope_toEnvelope_preserves_witness :
    (CEnvelope.toEnvelope 0 ⟨10, 11, 12, true, ⟨13, .code 14⟩⟩).1.id = 10
    ∧ (CEnvelope.toEnvelope 0
        ⟨10, 11, 12, true, ⟨13, .code 14⟩⟩).1.message.data = .code 14 := by
  have h := cEnvelope_toEnvelope_preserves 0 ⟨10, 11, 12, true, ⟨13, .code 14⟩⟩
  exact ⟨h.1, (h.2.2.2.2.2.2.1 14 rfl).2⟩

/-- C8 counterexample: the id counter is a `u64` advanced by
`fetch_add`, which wraps.  The envelope created by call number `2 ^ 64`
carries id `0`, the same id as the envelope created by call number `0`
— neither strictly greater nor distinct. -/
theorem envelope_id_wraps :
    (Envelope.new (uuidStateAfter 0) 0 0 false ⟨0, .none⟩).1.id
      = (Envelope.new (uuidStateAfter (2 ^ 64)) 0 0 false ⟨0, .none⟩).1.id
    ∧ (Envelope.new (uuidStateAfter 0) 0 0 false ⟨0, .none⟩).1.id = 0 := by
  constructor
  · show uuidStateAfter 0 = uuidStateAfter (2 ^ 64)
    rw [uuidStateAfter_eq, uuidStateAfter_eq, Nat.mod_self, Nat.zero_mod]
  · rfl

/-- C8 amended: envelopes built by `Envelope::new` draw their ids from
the single process-wide atomic counter starting at 0 and advanced by
`fetch_add`; as long as the later envelope is among the first `2 ^ 64`
constructed (the `u64` counter has not wrapped), two envelopes have
distinct ids and the one constructed later has the strictly greater
id. -/
theorem envelope_id_strict_mono (k j src₁ dst₁ src₂ dst₂ : Nat)
    (a₁ a₂ : Bool) (m₁ m₂ : Message) (hkj : k < j) (hj : j < 2 ^ 64) :
    (Envelope.new (uuidStateAfter k) src₁ dst₁ a₁ m₁).1.id
      < (Envelope.new (uuidStateAfter j) src₂ dst₂ a₂ m₂).1.id
    ∧ (Envelope.new (uuidStateAfter k) src₁ dst₁ a₁ m₁).1.id
      ≠ (Envelope.new (uuidStateAfter j) src₂ dst₂ a₂ m₂).1.id := by
  have hk₂ : (Envelope.new (uuidStateAfter k) src₁ dst₁ a₁ m₁).1.id = k := by
    show uuidStateAfter k = k
    rw [uuidStateAfter_eq, Nat.mod_eq_of_lt (lt_trans hkj hj)]
  have hj₂ : (Envelope.new (uuidStateAfter j) src₂ dst₂ a₂ m₂).1.id = j := by
    show uuidStateAfter j = j
    rw [uuidStateAfter_eq, Nat.mod_eq_of_lt hj]
  rw [hk₂, hj₂]
  exact ⟨hkj, Nat.ne_of_lt hkj⟩

theorem envelope_id_strict_mono_witness :
    (Envelope.new (uuidStateAfter 0) 1 2 false ⟨0, .none⟩).1.id
      < (Envelope.new (uuidStateAfter 1) 3 4 true ⟨0, .none⟩).1.id :=
  (envelope_id_strict_mono 0 1 1 2 3 4 false true ⟨0, .none⟩ ⟨0, .none⟩
    (by decide) (by norm_num)).1

/-- C9 counterexample: for the illegal level 0, `log_c` logs the
illegal-level notice at DEBUG level (not at warn): no warn-level event
is emitted at all. -/
theorem log_c_illegal_level_notice_is_debug :
    (log_c "m" "s" 0).1
      = [(.debug, .illegalLevel 0), (.debug, .defaulting),
         (.info, .message "s" "m")]
    ∧ LogLevel.warn ∉ ((log_c "m" "s" 0).1).map Prod.fst := by
  exact ⟨rfl, by decide⟩

/-- C9 amended: levels 1-5 log the message at error, warn, info, debug
and trace level respectively; for any other level value a notice about
the illegal level (and a defaulting notice) is logged at debug level
and the message itself is logged at info level; the function always
returns 0. -/
theorem log_c_levels (msg src : String) (level : Nat) :
    (level = 1 → log_c msg src level = ([(.error, .message src msg)], 0))
  ∧ (level = 2 → log_c msg src level = ([(.warn, .message src msg)], 0))
  ∧ (level = 3 → log_c msg src level = ([(.info, .message src msg)], 0))
  ∧ (level = 4 → log_c msg src level = ([(.debug, .message src msg)], 0))
  ∧ (level = 5 → log_c msg src level = ([(.trace, .message src msg)], 0))
  ∧ (level = 0 ∨ 5 < level →
      log_c msg src level
        = ([(.debug, .illegalLevel level), (.debug, .defaulting),
            (.info, .message src msg)], 0))
  ∧ (log_c msg src level).2 = 0 := by
  refine ⟨?_, ?_, ?_, ?_, ?_, ?_, rfl⟩
  · rintro rfl
    rfl
  · rintro rfl
    rfl
  · rintro rfl
    rfl
  · rintro rfl
    rfl
  · rintro rfl
    rfl
  · rintro (rfl | h)
    · rfl
    · obtain ⟨n, rfl⟩ : ∃ n, level = n + 6 := ⟨level - 6, by omega⟩
      rfl

theorem log_c_levels_witness :
    log_c "m" "s" 1 = ([(.error, .message "s" "m")], 0)
    ∧ log_c "m" "s" 9
        = ([(.debug, .illegalLevel 9), (.debug, .defaulting),
            (.info, .message "s" "m")], 0) :=
  ⟨(log_c_levels "m" "s" 1).1 rfl,
   (log_c_levels "m" "s" 9).2.2.2.2.2.1 (Or.inr (by norm_num))⟩

theorem applyOp_preserves_name (mb : MailBox) (op : MOp) (name : String)
    (hop : ∀ e n, op = .register e n → n ≠ name) :
    namesLookup (applyOp mb op).id name = namesLookup mb.id name := by
  cases op with
  | register e n =>
    have hn : n ≠ name := hop e n rfl
    simp [applyOp, MailBox.register, namesInsert_lookup_other _ _ _ _
      (fun hh => hn hh.symm)]
  | unregister i =>
    simp only [applyOp, MailBox.unregister]
    cases slabGet mb.registry i <;> rfl
  | sendOp alloc env =>
    simp only [applyOp, MailBox.send]
    cases slabGet mb.registry env.destination with
    | none => rfl
    | some ep =>
      dsimp only
      cases ep.channel.send (env.clone alloc) <;> rfl

theorem applyOps_preserves_name (mb : MailBox) (ops : List MOp) (name : String)
    (hops : ∀ e n, MOp.register e n ∈ ops → n ≠ name) :
    namesLookup (applyOps mb ops).id name = namesLookup mb.id name := by
  induction ops generalizing mb with
  | nil => rfl
  | cons op rest ih =>
    have h₁ : namesLookup (applyOp mb op).id name = namesLookup mb.id name :=
      applyOp_preserves_name mb op name
        (fun e n heq => hops e n (heq ▸ List.mem_cons_self op rest))
    have h₂ := ih (applyOp mb op)
      (fun e n hmem => hops e n (List.mem_cons_of_mem op hmem))
    calc namesLookup (applyOps (applyOp mb op) rest).id name
        = namesLookup (applyOp mb op).id name := h₂
      _ = namesLookup mb.id name := h₁

/-- C5: once `register(endpoint, name)` has returned `id`, any sequence
of further mailbox operations (registrations, unregistrations, sends)
that contains no registration reusing the same name leaves
`resolve(name) = Ok(id)`; in particular the binding survives until an
`unregister(id)` — and even past it, since `unregister` does not touch
the name table. -/
theorem register_resolve_stable (mb : MailBox) (e : Endpoint) (name : String)
    (ops : List MOp) (hops : ∀ e₂ n, MOp.register e₂ n ∈ ops → n ≠ name) :
    MailBox.resolve (applyOps (mb.register e name).2 ops) name
      = .ok (mb.register e name).1 := by
  have h₁ : namesLookup (mb.register e name).2.id name
      = some (mb.register e name).1 := by
    simp [MailBox.register, namesInsert_lookup_self]
  have h₂ := applyOps_preserves_name (mb.register e name).2 ops name hops
  simp [MailBox.resolve, h₂, h₁]

theorem register_resolve_stable_witness :
    MailBox.resolve
      (applyOps (MailBox.register ⟨[], []⟩ ⟨[], ⟨[], false⟩⟩ "alpha").2
        [.register ⟨[], ⟨[], false⟩⟩ "beta"]) "alpha"
      = .ok (MailBox.register ⟨[], []⟩ ⟨[], ⟨[], false⟩⟩ "alpha").1 :=
  register_resolve_stable ⟨[], []⟩ ⟨[], ⟨[], false⟩⟩ "alpha"
    [.register ⟨[], ⟨[], false⟩⟩ "beta"]
    (by
      intro e₂ n hmem
      simp only [List.mem_singleton, MOp.register.injEq] at hmem
      intro hn
      exact absurd (hmem.2.symm.trans hn) (by decide))

/-- C6 (the code): `send(envelope)` fails with
`PluginNotFound{id = destination}` exactly when no endpoint occupies
slot `envelope.destination`; when the endpoint exists but the channel
hand-off fails the error is `PluginFailedMessage` carrying the
undelivered envelope itself; and on success the destination endpoint's
channel receives `envelope.clone()` — which equals the envelope for
every payload class except `FfiData`, where the defective
`FFIData::clone` substitutes a fresh pointer and the `dummy`
destructor, so the endpoint receives a different envelope than the one
sent. -/
theorem mailbox_send_cases (mb : MailBox) (e : Envelope) (alloc : Nat) :
    (slabGet mb.registry e.destination = none ↔
      mb.send alloc e = .error (.pluginNotFound e.destination))
  ∧ (∀ ep, slabGet mb.registry e.destination = some ep →
      ep.channel.closed = true →
      mb.send alloc e = .error (.pluginFailedMessage e))
  ∧ (∀ ep, slabGet mb.registry e.destination = some ep →
      ep.channel.closed = false →
      mb.send alloc e = .ok { mb with
        registry := mb.registry.set e.destination
          (some { ep with channel := { ep.channel with
            sent := ep.channel.sent ++ [e.clone alloc] } }) })
  ∧ ((∀ d, e.message.data ≠ DataEnum.ffiData d) → e.clone alloc = e)
  ∧ (∀ d, e.message.data = DataEnum.ffiData d → d.free ≠ dummy →
      e.clone alloc ≠ e) := by
  refine ⟨⟨?_, ?_⟩, ?_, ?_, ?_, ?_⟩
  · intro h
    simp [MailBox.send, h]
  · intro h
    cases hget : slabGet mb.registry e.destination with
    | none => rfl
    | some ep =>
      exfalso
      cases hch : ep.channel.send (e.clone alloc) with
      | none => simp [MailBox.send, hget, hch] at h
      | some ch => simp [MailBox.send, hget, hch] at h
  · intro ep hget hcl
    simp [MailBox.send, hget, Channel.send, hcl]
  · intro ep hget hcl
    simp [MailBox.send, hget, Channel.send, hcl]
  · intro hnot
    obtain ⟨i, src, dst, ack, ⟨op, data⟩⟩ := e
    cases data with
    | none => rfl
    | code c => rfl
    | arc obj => rfl
    | bytes bs => rfl
    | ffiData d => exact absurd rfl (hnot d)
    | ffiPeek p => rfl
  · intro d hd hfree h
    have h₂ := congrArg (fun ev => ev.message.data) h
    simp only [Envelope.clone, Message.clone, DataEnum.clone, hd] at h₂
    injection h₂ with h₃
    exact hfree (congrArg FFIData.free h₃).symm

theorem mailbox_send_cases_witness :
    MailBox.send ⟨[some ⟨[], ⟨[], false⟩⟩], [("alpha", 0)]⟩ 100
        ⟨9, 1, 0, false, ⟨0, .ffiData ⟨7, 4, 1⟩⟩⟩
      = .ok ⟨[some ⟨[], ⟨[⟨9, 1, 0, false, ⟨0, .ffiData ⟨100, 4, 0⟩⟩⟩],
              false⟩⟩], [("alpha", 0)]⟩
    ∧ Envelope.clone 100 ⟨9, 1, 0, false, ⟨0, .ffiData ⟨7, 4, 1⟩⟩⟩
        ≠ ⟨9, 1, 0, false, ⟨0, .ffiData ⟨7, 4, 1⟩⟩⟩ := by
  have h := mailbox_send_cases ⟨[some ⟨[], ⟨[], false⟩⟩], [("alpha", 0)]⟩
    ⟨9, 1, 0, false, ⟨0, .ffiData ⟨7, 4, 1⟩⟩⟩ 100
  refine ⟨?_, h.2.2.2.2 ⟨7, 4, 1⟩ rfl (by decide)⟩
  have h₃ := h.2.2.1 ⟨[], ⟨[], false⟩⟩ rfl rfl
  rw [h₃]
  rfl

/-- C10 (amended): as long as the slot table holds fewer than
`2 ^ 32 - 1` slots — so the `as u32` cast of `register`'s slab keys is
lossless — registering a second endpoint under an already-used name
silently overwrites the name-table entry (the last registration wins)
while the first endpoint keeps its slot: afterwards `resolve(name)`
returns the second id, the slot table still maps the first id to the
first endpoint, and a `send` addressed to the first id still delivers
into the first endpoint's channel (the channel receiving
`envelope.clone()`, per the `send` contract). -/
theorem register_same_name_last_wins (mb : MailBox) (e₁ e₂ : Endpoint)
    (name : String) (env : Envelope) (alloc : Nat)
    (hlen : mb.registry.length + 1 < 2 ^ 32)
    (hopen : e₁.channel.closed = false)
    (hdst : env.destination = (mb.register e₁ name).1) :
    ((mb.register e₁ name).2.register e₂ name).1 ≠ (mb.register e₁ name).1
    ∧ ((mb.register e₁ name).2.register e₂ name).2.resolve name
        = .ok ((mb.register e₁ name).2.register e₂ name).1
    ∧ slabGet ((mb.register e₁ name).2.register e₂ name).2.registry
        (mb.register e₁ name).1 = some e₁
    ∧ (∃ mb₃,
        ((mb.register e₁ name).2.register e₂ name).2.send alloc env
          = .ok mb₃
        ∧ slabGet mb₃.registry (mb.register e₁ name).1
            = some { e₁ with channel := { e₁.channel with
                sent := e₁.channel.sent ++ [env.clone alloc] } }) := by
  obtain ⟨ei, es, ed, ea, em⟩ := env
  simp only at hdst
  subst hdst
  have hk₁le := slabInsert_key_le mb.registry e₁
  have hk₁lt : (slabInsert mb.registry e₁).1 < 2 ^ 32 := by omega
  have hid₁ : (mb.register e₁ name).1 = (slabInsert mb.registry e₁).1 := by
    show u32Mod (slabInsert mb.registry e₁).1 = _
    exact Nat.mod_eq_of_lt hk₁lt
  have hk₂le := slabInsert_key_le (slabInsert mb.registry e₁).2 e₂
  have hlen₁ := slabInsert_length mb.registry e₁
  have hk₂lt : (slabInsert (slabInsert mb.registry e₁).2 e₂).1 < 2 ^ 32 := by
    omega
  have hid₂ : ((mb.register e₁ name).2.register e₂ name).1
      = (slabInsert (slabInsert mb.registry e₁).2 e₂).1 := by
    show u32Mod (slabInsert (slabInsert mb.registry e₁).2 e₂).1 = _
    exact Nat.mod_eq_of_lt hk₂lt
  have hself : slabGet (slabInsert mb.registry e₁).2
      (slabInsert mb.registry e₁).1 = some e₁ :=
    slabInsert_get_self mb.registry e₁
  have hne : (slabInsert (slabInsert mb.registry e₁).2 e₂).1
      ≠ (slabInsert mb.registry e₁).1 := by
    intro hEq
    have hvac := slabInsert_vacant (slabInsert mb.registry e₁).2 e₂
    rw [hEq, hself] at hvac
    exact Option.noConfusion hvac
  have hget₂ : slabGet ((mb.register e₁ name).2.register e₂ name).2.registry
      (mb.register e₁ name).1 = some e₁ := by
    rw [hid₁]
    show slabGet (slabInsert (slabInsert mb.registry e₁).2 e₂).2
      (slabInsert mb.registry e₁).1 = some e₁
    rw [slabInsert_get_other _ _ _ (Ne.symm hne)]
    exact hself
  refine ⟨?_, ?_, hget₂, ?_⟩
  · rw [hid₁, hid₂]
    exact hne
  · have hres : namesLookup ((mb.register e₁ name).2.register e₂ name).2.id
        name = some (((mb.register e₁ name).2.register e₂ name).1) :=
      namesInsert_lookup_self _ _ _
    simp [MailBox.resolve, hres]
  · have hch : Channel.send e₁.channel
        (Envelope.clone alloc ⟨ei, es, (mb.register e₁ name).1, ea, em⟩)
        = some { e₁.channel with
            sent := e₁.channel.sent
              ++ [Envelope.clone alloc
                    ⟨ei, es, (mb.register e₁ name).1, ea, em⟩] } := by
      simp [Channel.send, hopen]
    refine ⟨{ ((mb.register e₁ name).2.register e₂ name).2 with
        registry := ((mb.register e₁ name).2.register e₂ name).2.registry.set
          (mb.register e₁ name).1
          (some { e₁ with channel := { e₁.channel with
              sent := e₁.channel.sent
                ++ [Envelope.clone alloc
                      ⟨ei, es, (mb.register e₁ name).1, ea, em⟩] } }) },
      ?_, ?_⟩
    · simp [MailBox.send, hget₂, hch]
    · exact slabGet_set_self _ _ e₁ _ hget₂

theorem register_same_name_last_wins_witness :
    ((MailBox.register ⟨[], []⟩ ⟨[], ⟨[], false⟩⟩ "n").2.register
        ⟨[1], ⟨[], false⟩⟩ "n").1
      ≠ (MailBox.register ⟨[], []⟩ ⟨[], ⟨[], false⟩⟩ "n").1 :=
  (register_same_name_last_wins ⟨[], []⟩ ⟨[], ⟨[], false⟩⟩ ⟨[1], ⟨[], false⟩⟩
    "n" ⟨9, 1, 0, false, ⟨0, .none⟩⟩ 0 (by decide) rfl rfl).1

/-- C10 counterexample: with `2 ^ 32` slots already occupied, the
`as u32` cast in `register` truncates the slab key.  Registering `e₁`
returns id `0` even though `e₁` was stored at key `2 ^ 32`; after the
second same-name registration, slot `0` still holds the pre-existing
endpoint, not `e₁` — so "`e₁` remains present in the slot table under
`id₁`" fails at this input, refuting the unconditional claim. -/
theorem register_u32_truncation_loses_slot :
    slabGet ((MailBox.register
          ⟨some ⟨[], ⟨[], false⟩⟩ ::
              List.replicate (2 ^ 32 - 1) (some ⟨[], ⟨[], false⟩⟩), []⟩
          ⟨[1], ⟨[], false⟩⟩ "n").2.register ⟨[2], ⟨[], false⟩⟩ "n").2.registry
        (MailBox.register
          ⟨some ⟨[], ⟨[], false⟩⟩ ::
              List.replicate (2 ^ 32 - 1) (some ⟨[], ⟨[], false⟩⟩), []⟩
          ⟨[1], ⟨[], false⟩⟩ "n").1
      = some ⟨[], ⟨[], false⟩⟩
    ∧ slabGet ((MailBox.register
          ⟨some ⟨[], ⟨[], false⟩⟩ ::
              List.replicate (2 ^ 32 - 1) (some ⟨[], ⟨[], false⟩⟩), []⟩
          ⟨[1], ⟨[], false⟩⟩ "n").2.register ⟨[2], ⟨[], false⟩⟩ "n").2.registry
        (MailBox.register
          ⟨some ⟨[], ⟨[], false⟩⟩ ::
              List.replicate (2 ^ 32 - 1) (some ⟨[], ⟨[], false⟩⟩), []⟩
          ⟨[1], ⟨[], false⟩⟩ "n").1
      ≠ some ⟨[1], ⟨[], false⟩⟩ := by
  have hfull₀ : ∀ a ∈ (some (⟨[], ⟨[], false⟩⟩ : Endpoint) ::
      List.replicate (2 ^ 32 - 1) (some ⟨[], ⟨[], false⟩⟩) : Slab Endpoint),
      a ≠ none := by
    intro a ha
    rcases List.mem_cons.mp ha with rfl | ha
    · intro hc
      exact Option.noConfusion hc
    · rw [List.eq_of_mem_replicate ha]
      intro hc
      exact Option.noConfusion hc
  have hlen₀ : (some (⟨[], ⟨[], false⟩⟩ : Endpoint) ::
      List.replicate (2 ^ 32 - 1) (some ⟨[], ⟨[], false⟩⟩)).length
      = 2 ^ 32 := by
    rw [List.length_cons, List.length_replicate]
    norm_num
  have hfull₁ : ∀ a ∈ (some (⟨[], ⟨[], false⟩⟩ : Endpoint) ::
      List.replicate (2 ^ 32 - 1) (some ⟨[], ⟨[], false⟩⟩))
      ++ [some (⟨[1], ⟨[], false⟩⟩ : Endpoint)], a ≠ none := by
    intro a ha
    rcases List.mem_append.mp ha with ha | ha
    · exact hfull₀ a ha
    · rw [List.mem_singleton.mp ha]
      intro hc
      exact Option.noConfusion hc
  have hid₁ : (MailBox.register
      ⟨some ⟨[], ⟨[], false⟩⟩ ::
          List.replicate (2 ^ 32 - 1) (some ⟨[], ⟨[], false⟩⟩), []⟩
      ⟨[1], ⟨[], false⟩⟩ "n").1 = 0 := by
    simp only [MailBox.register]
    rw [slabInsert_full_fst _ _ hfull₀, hlen₀]
    unfold u32Mod
    exact Nat.mod_self (2 ^ 32)
  constructor
  · rw [hid₁]
    simp only [MailBox.register]
    rw [slabInsert_full_snd _ _ hfull₀]
    rw [slabInsert_full_snd _ _ hfull₁]
    rfl
  · rw [hid₁]
    simp only [MailBox.register]
    rw [slabInsert_full_snd _ _ hfull₀]
    rw [slabInsert_full_snd _ _ hfull₁]
    intro hc
    exact absurd (Option.some.injEq _ _ ▸ hc) (by decide)

end Lunaris
